import Mathlib

/-!
Shallow embedding of the ffmpeg-wasm streaming core (src/src/main.ts and
src/src/ffmpeg-processor.ts) and proofs about its admission control,
error recovery, chunk producer, session retry loop, pending queue, and
processor guard checks.
-/

namespace FFmpegDemo

/-- Reason tags for the wait branches of analyzeBufferHealth
(main.ts lines 1219-1250), in source order. -/
inductive WaitReason where
  | tooManySegments
  | tooFarAhead
  | queueTooLong
  | memoryHigh
deriving DecidableEq, Repr

/-- The observable state analyzeBufferHealth reads: whether
this.sourceBuffer is non-null, sourceBuffer.buffered as a list of
(start, end) pairs, video.currentTime (0 when no video element),
this.streamQueue.length, and performance.memory usage ratio
usedJSHeapSize / totalJSHeapSize when the runtime exposes it. -/
structure BufferHealthInput where
  sourceBufferPresent : Bool
  buffered : List (ℚ × ℚ)
  currentTime : ℚ
  queueLength : ℕ
  memoryUsage : Option ℚ
deriving DecidableEq, Repr

/-- Result record of analyzeBufferHealth: shouldWait, waitTime in ms
(initialised to 1000), and which condition fired. -/
structure BufferHealthDecision where
  shouldWait : Bool
  waitTime : ℕ
  reason : Option WaitReason
deriving DecidableEq, Repr

/-- Buffered lookahead beyond the playback position:
buffered.end(buffered.length - 1) - video.currentTime (main.ts 1215-1217). -/
def bufferAhead (inp : BufferHealthInput) : ℚ :=
  ((inp.buffered.getLast?).getD (0, 0)).2 - inp.currentTime

/-- FFmpegDemo.analyzeBufferHealth (main.ts 1201-1261). Returns the
default decision (proceed, waitTime 1000) when the SourceBuffer is
absent or has no buffered range; otherwise checks, in order: more than
5 buffered segments (wait 2000), lookahead beyond 30s (wait 2000),
queue length beyond 5 (wait 500), and memory usage beyond 0.8
(wait 5000, only when performance.memory exists). -/
def analyzeBufferHealth (inp : BufferHealthInput) : BufferHealthDecision :=
  if inp.sourceBufferPresent = false ∨ inp.buffered = [] then
    ⟨false, 1000, none⟩
  else if 5 < inp.buffered.length then
    ⟨true, 2000, some .tooManySegments⟩
  else if 30 < bufferAhead inp then
    ⟨true, 2000, some .tooFarAhead⟩
  else if 5 < inp.queueLength then
    ⟨true, 500, some .queueTooLong⟩
  else
    match inp.memoryUsage with
    | some m => if (0.8 : ℚ) < m then ⟨true, 5000, some .memoryHigh⟩ else ⟨false, 1000, none⟩
    | none => ⟨false, 1000, none⟩

/-- Action taken by handleBufferQuotaExceeded: either remove the
buffered time range [start, stop) and keep streaming, or stop
streaming without removing anything. -/
inductive QuotaAction where
  | removeRange (start stop : ℚ) (keepStreaming : Bool)
  | abortStreaming
deriving DecidableEq, Repr

/-- FFmpegDemo.handleBufferQuotaExceeded (main.ts 1351-1367): when the
SourceBuffer exists and buffered.length > 1, remove(0, buffered.start(1))
and reschedule processStreamQueue; otherwise stopStreaming. -/
def handleBufferQuotaExceeded (sourceBufferPresent : Bool)
    (buffered : List (ℚ × ℚ)) : QuotaAction :=
  match sourceBufferPresent, buffered with
  | true, _ :: second :: _ => .removeRange 0 second.1 true
  | _, _ => .abortStreaming

end FFmpegDemo

namespace FFmpegProcessor

/-- One call into the underlying FFmpeg WASM engine. -/
inductive EngineCall where
  | exec (command : List String)
  | write (filename : String)
  | read (filename : String)
  | fsDelete (filename : String)
deriving DecidableEq, Repr

/-- FFmpegProcessor.executeCommand (ffmpeg-processor.ts 135-163):
throws when not initialized, otherwise runs ffmpeg.exec; returns true
on success and rethrows the engine failure. The second component lists
the engine calls made. -/
def executeCommand (isInitialized : Bool) (execOk : Bool)
    (command : List String) : Except String Bool × List EngineCall :=
  if isInitialized = false then
    (.error "FFmpeg not initialized, call initialize first", [])
  else if execOk then
    (.ok true, [.exec command])
  else
    (.error "command failed", [.exec command])

/-- FFmpegProcessor.writeFile (ffmpeg-processor.ts 168-192): throws
when not initialized, otherwise writes through the engine and rethrows
failures. -/
def writeFile (isInitialized : Bool) (writeOk : Bool)
    (filename : String) : Except String Unit × List EngineCall :=
  if isInitialized = false then
    (.error "FFmpeg not initialized", [])
  else if writeOk then
    (.ok (), [.write filename])
  else
    (.error "write failed", [.write filename])

/-- FFmpegProcessor.readFile (ffmpeg-processor.ts 197-213): throws when
not initialized, otherwise reads through the engine (engineData is the
engine result, none meaning the read threw) and rethrows failures. -/
def readFile (isInitialized : Bool) (engineData : Option (List ℕ))
    (filename : String) : Except String (List ℕ) × List EngineCall :=
  if isInitialized = false then
    (.error "FFmpeg not initialized", [])
  else
    match engineData with
    | some data => (.ok data, [.read filename])
    | none => (.error "read failed", [.read filename])

/-- FFmpegProcessor.deleteFile (ffmpeg-processor.ts 218-233): throws
when not initialized; engine failures are swallowed (delete failure is
non-fatal), so after the guard it always resolves. -/
def deleteFile (isInitialized : Bool) (deleteOk : Bool)
    (filename : String) : Except String Unit × List EngineCall :=
  if isInitialized = false then
    (.error "FFmpeg not initialized", [])
  else if deleteOk then
    (.ok (), [.fsDelete filename])
  else
    (.ok (), [.fsDelete filename])

/-- FFmpegProcessor.getVideoDuration (ffmpeg-processor.ts 416-433):
builds the probe command, runs it, and returns 60 both on success and
in the catch branch. Returns the duration and the probe command. -/
def getVideoDuration (inputFile : String) (probeOk : Bool) : ℕ × List String :=
  let command := ["-i", inputFile, "-f", "null", "-"]
  if probeOk then (60, command) else (60, command)

end FFmpegProcessor

namespace FFmpegDemo

/-- One chunk request issued to FFmpegProcessor.convertChunk by the
producer loop (main.ts 700-773): the chunk index, its start time
currentChunk * chunkDuration, and the requested window length, which
the source always passes as chunkDuration (main.ts 722-731). -/
structure ChunkRequest where
  index : ℕ
  startTime : ℕ
  duration : ℕ
deriving DecidableEq, Repr

/-- State of the producer while loop (main.ts 687-700): currentChunk,
consecutiveErrors, and the list of chunk requests issued so far. -/
structure ProducerState where
  currentChunk : ℕ
  consecutiveErrors : ℕ
  requests : List ChunkRequest
deriving DecidableEq, Repr

/-- How one run of the producer loop ended. -/
inductive ProducerOutcome where
  | completed
  | stoppedAtLast
  | fatalError
  | pending
deriving DecidableEq, Repr

/-- The producer while loop of realtimeConversion (main.ts 700-773)
with total duration D and chunk duration W, driven by a list of
per-attempt outcomes (true = the chunk transcode, read and append all
succeeded). Loop condition: currentChunk * W < D. At the top of each
iteration, consecutiveErrors >= 3 throws a fatal error (main.ts
701-704). Each attempt requests chunk (currentChunk, currentChunk * W,
W); on success currentChunk increments and errors reset; on failure
errors increment, and if currentChunk * W >= D - W the loop breaks
cleanly (last chunk, main.ts 766-769), otherwise after the 1s backoff
the same chunk index is retried. pending means the outcome list ran
out while the loop would continue. -/
def producerRun (D W : ℕ) : List Bool → ProducerState → ProducerState × ProducerOutcome
  | [], s =>
    if s.currentChunk * W < D then
      if 3 ≤ s.consecutiveErrors then (s, .fatalError) else (s, .pending)
    else (s, .completed)
  | ok :: rest, s =>
    if s.currentChunk * W < D then
      if 3 ≤ s.consecutiveErrors then (s, .fatalError)
      else
        let s1 : ProducerState :=
          { s with requests := s.requests ++ [⟨s.currentChunk, s.currentChunk * W, W⟩] }
        if ok then
          producerRun D W rest
            { s1 with currentChunk := s.currentChunk + 1, consecutiveErrors := 0 }
        else if D - W ≤ s.currentChunk * W then
          ({ s1 with consecutiveErrors := s.consecutiveErrors + 1 }, .stoppedAtLast)
        else
          producerRun D W rest { s1 with consecutiveErrors := s.consecutiveErrors + 1 }
    else (s, .completed)

/-- The producer state at the start of a streaming attempt
(main.ts 687-689). -/
def initProducer : ProducerState := ⟨0, 0, []⟩

/-- The producer state after a failed attempt that does not end the
loop: the request for the current chunk was issued, consecutiveErrors
incremented, and currentChunk left unchanged, so the same index is
attempted next. -/
def retryState (s : ProducerState) (W : ℕ) : ProducerState :=
  { s with requests := s.requests ++ [⟨s.currentChunk, s.currentChunk * W, W⟩],
           consecutiveErrors := s.consecutiveErrors + 1 }

/-- How the outer attempt loop of realtimeConversion ended. -/
inductive SessionResult where
  | streamedOk
  | fellBack
  | pending
deriving DecidableEq, Repr

/-- Observable outcome of the attempt loop: final result, number of
attempts used, and the cooldown delays (ms) taken between attempts. -/
structure SessionRun where
  result : SessionResult
  attemptsUsed : ℕ
  cooldowns : List ℕ
deriving DecidableEq, Repr

/-- The outer streaming-attempt loop of realtimeConversion (main.ts
660-796): while streamingAttempt < maxStreamingAttempts, increment the
counter and run one attempt (true = the attempt body completed without
throwing, reaching the break at main.ts 776). On failure the session is
stopped; if the attempt counter has reached the ceiling, the controller
falls back to whole-file conversion (fallbackToNormalConversion,
main.ts 784-788), otherwise it waits 2000 ms and retries. -/
def realtimeSessionLoop (maxAttempts : ℕ) : List Bool → ℕ → SessionRun
  | [], attempt => ⟨.pending, attempt, []⟩
  | ok :: rest, attempt =>
    if attempt < maxAttempts then
      if ok then ⟨.streamedOk, attempt + 1, []⟩
      else if maxAttempts ≤ attempt + 1 then ⟨.fellBack, attempt + 1, []⟩
      else
        let r := realtimeSessionLoop maxAttempts rest (attempt + 1)
        ⟨r.result, r.attemptsUsed, 2000 :: r.cooldowns⟩
    else ⟨.pending, attempt, []⟩

/-- Events acting on the pending chunk queue this.streamQueue. push is
addChunkToStream / the push in addChunkToStreamWithRetry (main.ts 1048,
1069); pop is processStreamQueue shifting and appending the head chunk
(main.ts 1142-1164); clear is the queue reset done by stopStreaming
(main.ts 1373), by processStreamQueue when the sink is unusable
(main.ts 1118-1121), and by handleSourceBufferErrorRecovery
(main.ts 1491). Chunks are identified by production ids. -/
inductive StreamEvent where
  | push (c : ℕ)
  | pop
  | clear
deriving DecidableEq, Repr

/-- The queue-visible state: the pending queue, the chunks appended to
the SourceBuffer so far (in append order), and all chunks produced so
far (in production order). -/
structure QueueState where
  streamQueue : List ℕ
  appended : List ℕ
  produced : List ℕ
deriving DecidableEq, Repr

/-- One queue event: push appends at the back of streamQueue
(Array.prototype.push), pop takes the front element
(Array.prototype.shift) and appends it to the sink, clear empties the
queue and appends nothing. -/
def streamStep : StreamEvent → QueueState → QueueState
  | .push c, s => { s with streamQueue := s.streamQueue ++ [c], produced := s.produced ++ [c] }
  | .pop, s =>
    match s.streamQueue with
    | [] => s
    | c :: rest => { s with streamQueue := rest, appended := s.appended ++ [c] }
  | .clear, s => { s with streamQueue := [] }

/-- Run a list of queue events from a state. -/
def runStream : List StreamEvent → QueueState → QueueState
  | [], s => s
  | e :: rest, s => runStream rest (streamStep e s)

/-- The empty queue state at session start (main.ts 670). -/
def initQueue : QueueState := ⟨[], [], []⟩

/-- The chunk ids pushed by a list of events, in order. -/
def pushesOf : List StreamEvent → List ℕ
  | [] => []
  | .push c :: rest => c :: pushesOf rest
  | _ :: rest => pushesOf rest

/-- The session state the recovery and monitor code reads and writes:
this.isStreaming, whether the sink is usable (this.sourceBuffer non-null
and this.mediaSource.readyState = open), this.streamQueue, and
this.bufferMonitor.consecutiveErrors. -/
structure SessionState where
  isStreaming : Bool
  sinkOpen : Bool
  streamQueue : List ℕ
  consecutiveErrors : ℕ
deriving DecidableEq, Repr

/-- FFmpegDemo.handleSourceBufferErrorRecovery (main.ts 1486-1520):
when the SourceBuffer exists and the MediaSource is open, it clears the
queue and safely ends the stream (safeEndStream removes the buffer and
calls endOfStream, so the sink is no longer open) and returns;
otherwise it runs the full reset: stopStreaming, which sets
isStreaming to false and clears the queue (main.ts 1369-1379). -/
def handleSourceBufferErrorRecovery (s : SessionState) : SessionState :=
  if s.sinkOpen then { s with streamQueue := [], sinkOpen := false }
  else { s with isStreaming := false, streamQueue := [], sinkOpen := false }

/-- FFmpegDemo.logPerformanceStats (main.ts 1280-1298): reports stats
and, only when consecutiveErrors > 5, triggers
handleSourceBufferErrorRecovery. -/
def logPerformanceStats (s : SessionState) : SessionState :=
  if 5 < s.consecutiveErrors then handleSourceBufferErrorRecovery s else s

/-- Events that drive the monitor state machine: the 10s stats tick
(main.ts 1268-1270), the SourceBuffer error event handler which
increments consecutiveErrors and calls recovery (main.ts 1151-1158),
and a successful append which resets consecutiveErrors
(main.ts 1167-1169). -/
inductive MonitorEvent where
  | statsTick
  | appendErrorEvent
  | appendSuccess
deriving DecidableEq, Repr

/-- One monitor event applied to the session state. -/
def sessionStep : MonitorEvent → SessionState → SessionState
  | .statsTick, s => logPerformanceStats s
  | .appendErrorEvent, s =>
      handleSourceBufferErrorRecovery { s with consecutiveErrors := s.consecutiveErrors + 1 }
  | .appendSuccess, s => { s with consecutiveErrors := 0 }

/-- All states visited while running a list of monitor events,
starting state included. -/
def runStates : List MonitorEvent → SessionState → List SessionState
  | [], s => [s]
  | e :: rest, s => s :: runStates rest (sessionStep e s)

/-- Number of transitions into the stopped state along a trace of
isStreaming values: adjacent pairs going from true to false. -/
def abortCount : List Bool → ℕ
  | [] => 0
  | [_] => 0
  | a :: b :: rest => (if a = true ∧ b = false then 1 else 0) + abortCount (b :: rest)

end FFmpegDemo

namespace FFmpegDemo

/-- Claim C9: getVideoDuration returns the fixed value 60 for every
input filename, both when the probe command succeeds and when it
throws; the returned duration never depends on the input. -/
theorem getVideoDuration_constant (f g : String) (p q : Bool) :
    (FFmpegProcessor.getVideoDuration f p).1 = 60 ∧
    (FFmpegProcessor.getVideoDuration f p).1 = (FFmpegProcessor.getVideoDuration g q).1 := by
  cases p <;> cases q <;> exact ⟨rfl, rfl⟩

/-- Claim C10: with the initialized flag false, each of executeCommand,
writeFile, readFile and deleteFile returns an error and performs no
engine call, for every argument value. -/
theorem uninitialized_operations_guarded (execOk writeOk deleteOk : Bool)
    (engineData : Option (List ℕ)) (command : List String) (f2 f3 f4 : String) :
    FFmpegProcessor.executeCommand false execOk command
      = (.error "FFmpeg not initialized, call initialize first", []) ∧
    FFmpegProcessor.writeFile false writeOk f2 = (.error "FFmpeg not initialized", []) ∧
    FFmpegProcessor.readFile false engineData f3 = (.error "FFmpeg not initialized", []) ∧
    FFmpegProcessor.deleteFile false deleteOk f4 = (.error "FFmpeg not initialized", []) :=
  ⟨rfl, rfl, rfl, rfl⟩

/-- Claim C4: on a quota-exceeded append failure, when at least two
buffered segments exist the recovery removes exactly the range from
time 0 up to the start of the second buffered segment and streaming
continues; with one or zero segments (or no SourceBuffer) nothing is
removed and streaming is aborted. -/
theorem handleBufferQuotaExceeded_spec (present : Bool) (buffered : List (ℚ × ℚ)) :
    (∀ s1 s2 rest, present = true → buffered = s1 :: s2 :: rest →
        handleBufferQuotaExceeded present buffered = .removeRange 0 s2.1 true) ∧
    (buffered.length ≤ 1 →
        handleBufferQuotaExceeded present buffered = .abortStreaming) := by
  constructor
  · rintro s1 s2 rest hp hb
    subst hp
    subst hb
    rfl
  · intro hlen
    cases present with
    | false =>
      cases buffered with
      | nil => rfl
      | cons a t => cases t with | nil => rfl | cons b t2 => rfl
    | true =>
      cases buffered with
      | nil => rfl
      | cons a t =>
        cases t with
        | nil => rfl
        | cons b t2 => simp [List.length_cons] at hlen

/-- Claim C4 witness: the general theorem applied to a sink with
buffered ranges [1,3] and [5,9], and to a sink with the single range
[1,3]. -/
theorem handleBufferQuotaExceeded_spec_witness :
    handleBufferQuotaExceeded true [((1 : ℚ), (3 : ℚ)), (5, 9)] = .removeRange 0 5 true ∧
    handleBufferQuotaExceeded true [((1 : ℚ), (3 : ℚ))] = .abortStreaming :=
  ⟨(handleBufferQuotaExceeded_spec true [(1, 3), (5, 9)]).1 (1, 3) (5, 9) [] rfl rfl,
   (handleBufferQuotaExceeded_spec true [(1, 3)]).2 (Nat.le_refl 1)⟩

/-- Claim C1 counterexample: with no buffered range at all, a pending
queue of depth 6 and memory utilization 0.9, analyzeBufferHealth
returns proceed (shouldWait false), although the claim requires a wait
whenever queue depth exceeds 5 or memory utilization exceeds 0.8. -/
theorem analyzeBufferHealth_proceeds_despite_pressure :
    5 < (6 : ℕ) ∧ (0.8 : ℚ) < 0.9 ∧
    analyzeBufferHealth ⟨true, [], 0, 6, some 0.9⟩ = ⟨false, 1000, none⟩ :=
  ⟨by norm_num, by norm_num, rfl⟩

/-- Claim C1 (amended): when the SourceBuffer exists and has at least
one buffered range, analyzeBufferHealth follows the priority order:
more than 5 segments waits 2s, then lookahead beyond 30s waits 2s,
then queue depth beyond 5 waits 0.5s, then memory utilization beyond
0.8 waits 5s (when memory data exists); when none trigger it
proceeds. -/
theorem analyzeBufferHealth_priority (inp : BufferHealthInput)
    (hsb : inp.sourceBufferPresent = true) (hne : inp.buffered ≠ []) :
    (5 < inp.buffered.length →
        analyzeBufferHealth inp = ⟨true, 2000, some .tooManySegments⟩) ∧
    (inp.buffered.length ≤ 5 → 30 < bufferAhead inp →
        analyzeBufferHealth inp = ⟨true, 2000, some .tooFarAhead⟩) ∧
    (inp.buffered.length ≤ 5 → bufferAhead inp ≤ 30 → 5 < inp.queueLength →
        analyzeBufferHealth inp = ⟨true, 500, some .queueTooLong⟩) ∧
    (∀ m, inp.buffered.length ≤ 5 → bufferAhead inp ≤ 30 → inp.queueLength ≤ 5 →
        inp.memoryUsage = some m → (0.8 : ℚ) < m →
        analyzeBufferHealth inp = ⟨true, 5000, some .memoryHigh⟩) ∧
    (inp.buffered.length ≤ 5 → bufferAhead inp ≤ 30 → inp.queueLength ≤ 5 →
        (∀ m, inp.memoryUsage = some m → m ≤ 0.8) →
        analyzeBufferHealth inp = ⟨false, 1000, none⟩) := by
  have hguard : ¬(inp.sourceBufferPresent = false ∨ inp.buffered = []) := by
    simp [hsb, hne]
  refine ⟨?_, ?_, ?_, ?_, ?_⟩
  · intro h1
    rw [analyzeBufferHealth, if_neg hguard, if_pos h1]
  · intro h1 h2
    rw [analyzeBufferHealth, if_neg hguard, if_neg (not_lt.mpr h1), if_pos h2]
  · intro h1 h2 h3
    rw [analyzeBufferHealth, if_neg hguard, if_neg (not_lt.mpr h1),
      if_neg (not_lt.mpr h2), if_pos h3]
  · intro m h1 h2 h3 hm hgt
    rw [analyzeBufferHealth, if_neg hguard, if_neg (not_lt.mpr h1),
      if_neg (not_lt.mpr h2), if_neg (not_lt.mpr h3), hm]
    exact if_pos hgt
  · intro h1 h2 h3 hmem
    rw [analyzeBufferHealth, if_neg hguard, if_neg (not_lt.mpr h1),
      if_neg (not_lt.mpr h2), if_neg (not_lt.mpr h3)]
    cases hm : inp.memoryUsage with
    | none => rfl
    | some m => exact if_neg (not_lt.mpr (hmem m hm))

/-- Claim C1 witness: the amended theorem applied to a sink with the
single buffered range [0,40] and playback position 0, where the
lookahead rule fires with a 2s wait. -/
theorem analyzeBufferHealth_priority_witness :
    analyzeBufferHealth ⟨true, [((0 : ℚ), (40 : ℚ))], 0, 0, none⟩
      = ⟨true, 2000, some .tooFarAhead⟩ :=
  (analyzeBufferHealth_priority ⟨true, [(0, 40)], 0, 0, none⟩ rfl (by simp)).2.1
    (by norm_num) (by norm_num [bufferAhead])

/-- Claim C3 counterexample: in the all-success run with duration 60
and chunk duration 8, the last chunk is requested with a window of the
full 8 seconds, not clipped to the remaining 4 seconds as the claim
states. -/
theorem last_chunk_window_not_clipped :
    ((producerRun 60 8 (List.replicate 8 true) initProducer).1.requests.map
        ChunkRequest.duration).getLast? = some 8 ∧ (8 : ℕ) ≠ 4 :=
  ⟨by decide, by decide⟩

/-- Claim C3 (amended): with duration 60 and chunk duration 8 and
every transcode and append succeeding, exactly 8 chunks are requested,
with indices 0 through 7, start times 0, 8, ..., 56, and each request
(the last one included) carries the full 8s window; the producer loop
completes and the single successful attempt finishes the session
without invoking the fallback conversion. -/
theorem realtime_60s_8s_scenario :
    producerRun 60 8 (List.replicate 8 true) initProducer =
      (⟨8, 0, [⟨0, 0, 8⟩, ⟨1, 8, 8⟩, ⟨2, 16, 8⟩, ⟨3, 24, 8⟩,
               ⟨4, 32, 8⟩, ⟨5, 40, 8⟩, ⟨6, 48, 8⟩, ⟨7, 56, 8⟩]⟩, .completed) ∧
    realtimeSessionLoop 2 [true] 0 = ⟨.streamedOk, 1, []⟩ :=
  ⟨by decide, by decide⟩

/-- Claim C6: fallback conversion is invoked exactly when both
streaming attempts fail; a failed first attempt retries after a 2s
cooldown, and a successful attempt (a successful retry included) never
triggers fallback. -/
theorem realtimeSessionLoop_fallback_iff (o1 o2 : Bool) (rest : List Bool) :
    ((realtimeSessionLoop 2 (o1 :: o2 :: rest) 0).result = .fellBack ↔
        o1 = false ∧ o2 = false) ∧
    (o1 = true → realtimeSessionLoop 2 (o1 :: o2 :: rest) 0 = ⟨.streamedOk, 1, []⟩) ∧
    (o1 = false → o2 = true →
        realtimeSessionLoop 2 (o1 :: o2 :: rest) 0 = ⟨.streamedOk, 2, [2000]⟩) ∧
    (o1 = false → o2 = false →
        realtimeSessionLoop 2 (o1 :: o2 :: rest) 0 = ⟨.fellBack, 2, [2000]⟩) := by
  cases o1 <;> cases o2 <;> simp [realtimeSessionLoop]

/-- Claim C6 witness: the fallback characterization applied to the
run whose first attempt fails and whose retry succeeds, and to the run
where both attempts fail. -/
theorem realtimeSessionLoop_fallback_iff_witness :
    realtimeSessionLoop 2 [false, true] 0 = ⟨.streamedOk, 2, [2000]⟩ ∧
    (realtimeSessionLoop 2 [false, false] 0).result = .fellBack :=
  ⟨(realtimeSessionLoop_fallback_iff false true []).2.2.1 rfl rfl,
   (realtimeSessionLoop_fallback_iff false false []).1.mpr ⟨rfl, rfl⟩⟩

/-- Claim C5 counterexample: with duration 60 and chunk duration 8,
when chunk index 6 fails its end time 56 satisfies the claim condition
end ≥ D − W = 52, yet the producer does not stop cleanly: it keeps the
same chunk index 6 for a retry (the code tests the start time, not the
end time, against D − W). -/
theorem last_chunk_rule_uses_start_not_end :
    60 - 8 ≤ (6 + 1) * 8 ∧
    (producerRun 60 8 [true, true, true, true, true, true, false] initProducer).2
      ≠ .stoppedAtLast ∧
    (producerRun 60 8 [true, true, true, true, true, true, false]
      initProducer).1.currentChunk = 6 := by
  decide

/-- Claim C5 (amended): for a failing chunk, if its start time is at
least D − W (equivalently its end time reaches D, so it is the last
chunk) production stops cleanly; otherwise the same chunk index is
re-attempted after the backoff; and once consecutiveErrors reaches 3
the producer aborts with a fatal error at the top of the loop. -/
theorem producer_failure_spec (D W : ℕ) (rest : List Bool) :
    (∀ s : ProducerState, s.currentChunk * W < D → s.consecutiveErrors < 3 →
        D - W ≤ s.currentChunk * W →
        producerRun D W (false :: rest) s = (retryState s W, .stoppedAtLast)) ∧
    (∀ s : ProducerState, s.currentChunk * W < D → s.consecutiveErrors < 3 →
        s.currentChunk * W < D - W →
        producerRun D W (false :: rest) s = producerRun D W rest (retryState s W) ∧
        (retryState s W).currentChunk = s.currentChunk) ∧
    (∀ s : ProducerState, s.currentChunk * W < D → 3 ≤ s.consecutiveErrors →
        producerRun D W rest s = (s, .fatalError)) := by
  refine ⟨?_, ?_, ?_⟩
  · intro s h1 h2 h3
    have h2n : ¬3 ≤ s.consecutiveErrors := by omega
    simp [producerRun, h1, h2n, h3, retryState]
  · intro s h1 h2 h3
    have h2n : ¬3 ≤ s.consecutiveErrors := by omega
    have h3n : ¬D - W ≤ s.currentChunk * W := by omega
    constructor
    · simp [producerRun, h1, h2n, h3n, retryState]
    · rfl
  · intro s h1 h2
    cases rest with
    | nil => simp [producerRun, h1, h2]
    | cons a t => simp [producerRun, h1, h2]

/-- Claim C5 witness: the failure rules applied with duration 60 and
chunk duration 8 to the failing last chunk (index 7, start 56), to a
failing middle chunk (index 6, start 48), and to a state whose error
counter has reached 3. -/
theorem producer_failure_spec_witness :
    producerRun 60 8 [false] ⟨7, 1, []⟩ = (retryState ⟨7, 1, []⟩ 8, .stoppedAtLast) ∧
    (producerRun 60 8 [false] ⟨6, 1, []⟩ = producerRun 60 8 [] (retryState ⟨6, 1, []⟩ 8) ∧
      (retryState ⟨6, 1, []⟩ 8).currentChunk = 6) ∧
    producerRun 60 8 [] ⟨6, 3, []⟩ = (⟨6, 3, []⟩, .fatalError) :=
  ⟨(producer_failure_spec 60 8 []).1 ⟨7, 1, []⟩ (by norm_num) (by norm_num) (by norm_num),
   (producer_failure_spec 60 8 []).2.1 ⟨6, 1, []⟩ (by norm_num) (by norm_num) (by norm_num),
   (producer_failure_spec 60 8 []).2.2 ⟨6, 3, []⟩ (by norm_num) (by norm_num)⟩

/-- A clear-free queue step preserves the decomposition of the
production history into the appended history followed by the pending
queue. -/
theorem streamStep_decomp (e : StreamEvent) (s : QueueState)
    (hne : e ≠ StreamEvent.clear)
    (h : s.produced = s.appended ++ s.streamQueue) :
    (streamStep e s).produced =
      (streamStep e s).appended ++ (streamStep e s).streamQueue := by
  cases e with
  | push c => simp [streamStep, h]
  | pop =>
    cases hq : s.streamQueue with
    | nil => simpa [streamStep, hq] using h
    | cons c rest =>
      rw [hq] at h
      simp [streamStep, hq, h]
  | clear => exact absurd rfl hne

/-- Running clear-free events preserves the produced = appended ++
queue decomposition. -/
theorem runStream_decomp (events : List StreamEvent) (s : QueueState)
    (hnc : ∀ e ∈ events, e ≠ StreamEvent.clear)
    (h : s.produced = s.appended ++ s.streamQueue) :
    (runStream events s).produced =
      (runStream events s).appended ++ (runStream events s).streamQueue := by
  induction events generalizing s with
  | nil => exact h
  | cons e rest ih =>
    exact ih (streamStep e s) (fun x hx => hnc x (List.mem_cons_of_mem e hx))
      (streamStep_decomp e s (hnc e (List.mem_cons_self e rest)) h)

/-- Claim C7: over any interleaving of pushes and admission-delayed
pops (no clears), the appended sequence is an order-preserving prefix
of the production sequence, and if chunks are produced with
non-decreasing sequence indices the appended indices are
non-decreasing too. -/
theorem queue_fifo_no_reorder (events : List StreamEvent)
    (hnc : ∀ e ∈ events, e ≠ StreamEvent.clear) :
    (∃ t, (runStream events initQueue).produced =
        (runStream events initQueue).appended ++ t) ∧
    (List.Pairwise (· ≤ ·) (runStream events initQueue).produced →
        List.Pairwise (· ≤ ·) (runStream events initQueue).appended) := by
  have h := runStream_decomp events initQueue hnc rfl
  refine ⟨⟨_, h⟩, fun hp => ?_⟩
  rw [h] at hp
  exact (List.pairwise_append.mp hp).1

/-- Claim C7 witness: the FIFO theorem applied to the interleaving
push 0, push 1, pop, push 2, pop. -/
theorem queue_fifo_no_reorder_witness :
    (∃ t, (runStream [.push 0, .push 1, .pop, .push 2, .pop] initQueue).produced =
        (runStream [.push 0, .push 1, .pop, .push 2, .pop] initQueue).appended ++ t) ∧
    (List.Pairwise (· ≤ ·)
        (runStream [.push 0, .push 1, .pop, .push 2, .pop] initQueue).produced →
      List.Pairwise (· ≤ ·)
        (runStream [.push 0, .push 1, .pop, .push 2, .pop] initQueue).appended) :=
  queue_fifo_no_reorder [.push 0, .push 1, .pop, .push 2, .pop] (by decide)

/-- Running a concatenation of event lists runs them in order. -/
theorem runStream_append (a b : List StreamEvent) (s : QueueState) :
    runStream (a ++ b) s = runStream b (runStream a s) := by
  induction a generalizing s with
  | nil => rfl
  | cons e rest ih => simp [runStream, ih]

/-- The production history after a run is the previous history plus
the pushed ids, in order. -/
theorem runStream_produced (es : List StreamEvent) (s : QueueState) :
    (runStream es s).produced = s.produced ++ pushesOf es := by
  induction es generalizing s with
  | nil => simp [runStream, pushesOf]
  | cons e rest ih =>
    cases e with
    | push c => simp [runStream, streamStep, pushesOf, ih]
    | pop =>
      cases hq : s.streamQueue with
      | nil => simp [runStream, streamStep, hq, pushesOf, ih]
      | cons c r => simp [runStream, streamStep, hq, pushesOf, ih]
    | clear => simp [runStream, streamStep, pushesOf, ih]

/-- Every id appended or still queued after a run was already appended,
already queued, or pushed during the run. -/
theorem runStream_mem_tracking (es : List StreamEvent) (s : QueueState) :
    (∀ x, x ∈ (runStream es s).appended →
        x ∈ s.appended ∨ x ∈ s.streamQueue ∨ x ∈ pushesOf es) ∧
    (∀ x, x ∈ (runStream es s).streamQueue →
        x ∈ s.streamQueue ∨ x ∈ pushesOf es) := by
  induction es generalizing s with
  | nil =>
    exact ⟨fun x hx => Or.inl hx, fun x hx => Or.inl hx⟩
  | cons e rest ih =>
    cases e with
    | push c =>
      refine ⟨fun x hx => ?_, fun x hx => ?_⟩
      · have h := (ih (streamStep (.push c) s)).1 x (by simpa [runStream] using hx)
        simp only [streamStep, pushesOf, List.mem_append, List.mem_cons,
          List.mem_singleton] at h ⊢
        tauto
      · have h := (ih (streamStep (.push c) s)).2 x (by simpa [runStream] using hx)
        simp only [streamStep, pushesOf, List.mem_append, List.mem_cons,
          List.mem_singleton] at h ⊢
        tauto
    | pop =>
      cases hq : s.streamQueue with
      | nil =>
        refine ⟨fun x hx => ?_, fun x hx => ?_⟩
        · have h := (ih (streamStep .pop s)).1 x (by simpa [runStream] using hx)
          simp only [streamStep, hq, pushesOf, List.mem_append, List.mem_cons,
            List.mem_singleton] at h ⊢
          tauto
        · have h := (ih (streamStep .pop s)).2 x (by simpa [runStream] using hx)
          simp only [streamStep, hq, pushesOf, List.mem_append, List.mem_cons,
            List.mem_singleton] at h ⊢
          tauto
      | cons c r =>
        refine ⟨fun x hx => ?_, fun x hx => ?_⟩
        · have h := (ih (streamStep .pop s)).1 x (by simpa [runStream] using hx)
          simp only [streamStep, hq, pushesOf, List.mem_append, List.mem_cons,
            List.mem_singleton] at h ⊢
          tauto
        · have h := (ih (streamStep .pop s)).2 x (by simpa [runStream] using hx)
          simp only [streamStep, hq, pushesOf, List.mem_append, List.mem_cons,
            List.mem_singleton] at h ⊢
          tauto
    | clear =>
      refine ⟨fun x hx => ?_, fun x hx => ?_⟩
      · have h := (ih (streamStep .clear s)).1 x (by simpa [runStream] using hx)
        simp only [streamStep, pushesOf, List.mem_append, List.mem_cons,
          List.not_mem_nil] at h ⊢
        tauto
      · have h := (ih (streamStep .clear s)).2 x (by simpa [runStream] using hx)
        simp only [streamStep, pushesOf, List.mem_append, List.mem_cons,
          List.not_mem_nil] at h ⊢
        tauto

/-- The appended history followed by the pending queue is always a
sublist of the production history, also across clears. -/
theorem runStream_sublist (es : List StreamEvent) (s : QueueState)
    (h : List.Sublist (s.appended ++ s.streamQueue) s.produced) :
    List.Sublist ((runStream es s).appended ++ (runStream es s).streamQueue)
      (runStream es s).produced := by
  induction es generalizing s with
  | nil => exact h
  | cons e rest ih =>
    apply ih
    cases e with
    | push c =>
      have h2 := h.append (List.Sublist.refl [c])
      simpa [streamStep, List.append_assoc] using h2
    | pop =>
      cases hq : s.streamQueue with
      | nil => simpa [streamStep, hq] using h
      | cons c r => simpa [streamStep, hq, List.append_assoc] using h
    | clear =>
      simpa [streamStep] using
        (List.sublist_append_left s.appended s.streamQueue).trans h

/-- Claim C8: when the queue is cleared (session abort or unusable
sink), every chunk pending at that moment is never appended afterwards,
as long as production ids are never duplicated. -/
theorem cleared_chunks_never_appended (pre post : List StreamEvent) (c : ℕ)
    (hq : c ∈ (runStream pre initQueue).streamQueue)
    (hnd : (runStream (pre ++ StreamEvent.clear :: post) initQueue).produced.Nodup) :
    c ∉ (runStream (pre ++ StreamEvent.clear :: post) initQueue).appended := by
  intro hmem
  set s1 := runStream pre initQueue with hs1
  have hfull : runStream (pre ++ StreamEvent.clear :: post) initQueue
      = runStream post (streamStep StreamEvent.clear s1) := by
    rw [runStream_append]
    rfl
  have hsub : List.Sublist (s1.appended ++ s1.streamQueue) s1.produced :=
    runStream_sublist pre initQueue (by simp [initQueue])
  have hcprod : c ∈ s1.produced :=
    hsub.subset (List.mem_append.mpr (Or.inr hq))
  have hprod_full : (runStream (pre ++ StreamEvent.clear :: post) initQueue).produced
      = s1.produced ++ pushesOf post := by
    rw [hfull, runStream_produced]
    simp [streamStep]
  rw [hprod_full] at hnd
  rcases List.nodup_append.mp hnd with ⟨hnd1, _, hdisj⟩
  have hcpost : c ∉ pushesOf post := fun hc => hdisj hcprod hc
  have hnd2 : (s1.appended ++ s1.streamQueue).Nodup := hnd1.sublist hsub
  have hcapp : c ∉ s1.appended := by
    rcases List.nodup_append.mp hnd2 with ⟨_, _, hdisj2⟩
    exact fun hc => hdisj2 hc hq
  rw [hfull] at hmem
  rcases (runStream_mem_tracking post (streamStep StreamEvent.clear s1)).1 c hmem
    with h | h | h
  · exact hcapp (by simpa [streamStep] using h)
  · simp [streamStep] at h
  · exact hcpost h

/-- No monitor event restarts a stopped session: isStreaming is never
set back to true within a session (a new session is only started by
realtimeConversion itself). -/
theorem sessionStep_not_restart (e : MonitorEvent) (s : SessionState)
    (h : s.isStreaming = false) : (sessionStep e s).isStreaming = false := by
  cases e with
  | statsTick =>
    by_cases h5 : 5 < s.consecutiveErrors <;>
      by_cases hso : s.sinkOpen <;>
        simp [sessionStep, logPerformanceStats, handleSourceBufferErrorRecovery,
          h, h5, hso]
  | appendErrorEvent =>
    by_cases hso : s.sinkOpen <;>
      simp [sessionStep, handleSourceBufferErrorRecovery, h, hso]
  | appendSuccess => simpa [sessionStep] using h

/-- Unfolding abortCount on a list with at least two entries. -/
theorem abortCount_cons (a b : Bool) (rest : List Bool) :
    abortCount (a :: b :: rest) =
      (if a = true ∧ b = false then 1 else 0) + abortCount (b :: rest) := rfl

/-- A trace whose entries are all false has no abort transition. -/
theorem abortCount_all_false (l : List Bool) (h : ∀ b ∈ l, b = false) :
    abortCount l = 0 := by
  induction l with
  | nil => rfl
  | cons a t ih =>
    cases t with
    | nil => rfl
    | cons b r =>
      have ha : a = false := h a (List.mem_cons_self a _)
      have ht : ∀ x ∈ b :: r, x = false := fun x hx =>
        h x (List.mem_cons_of_mem a hx)
      rw [abortCount_cons, if_neg (by simp [ha]), ih ht]

/-- From a stopped session, every later state in the trace is
stopped. -/
theorem runStates_all_false (events : List MonitorEvent) (s : SessionState)
    (h : s.isStreaming = false) :
    ∀ b ∈ (runStates events s).map SessionState.isStreaming, b = false := by
  induction events generalizing s with
  | nil =>
    intro b hb
    simp [runStates] at hb
    rw [hb]
    exact h
  | cons e rest ih =>
    intro b hb
    rcases (by simpa [runStates] using hb :
        b = s.isStreaming ∨ b ∈ (runStates rest (sessionStep e s)).map
          SessionState.isStreaming) with hb1 | hb2
    · rw [hb1, h]
    · exact ih (sessionStep e s) (sessionStep_not_restart e s h) b hb2

/-- The trace of states always starts with the initial state. -/
theorem runStates_head (events : List MonitorEvent) (s : SessionState) :
    ∃ t, runStates events s = s :: t := by
  cases events with
  | nil => exact ⟨[], rfl⟩
  | cons e rest => exact ⟨runStates rest (sessionStep e s), rfl⟩

/-- Along any trace of monitor events, the session transitions into
the stopped state at most once. -/
theorem abortCount_le_one (events : List MonitorEvent) (s : SessionState) :
    abortCount ((runStates events s).map SessionState.isStreaming) ≤ 1 := by
  induction events generalizing s with
  | nil => simp [runStates, abortCount]
  | cons e rest ih =>
    obtain ⟨t, ht⟩ := runStates_head rest (sessionStep e s)
    have hshape : (runStates (e :: rest) s).map SessionState.isStreaming
        = s.isStreaming :: (sessionStep e s).isStreaming :: t.map SessionState.isStreaming := by
      simp [runStates, ht]
    rw [hshape, abortCount_cons]
    have htail : abortCount ((sessionStep e s).isStreaming :: t.map SessionState.isStreaming)
        = abortCount ((runStates rest (sessionStep e s)).map SessionState.isStreaming) := by
      rw [ht]
      simp
    by_cases hc : s.isStreaming = true ∧ (sessionStep e s).isStreaming = false
    · rw [if_pos hc, htail]
      have hz : abortCount ((runStates rest (sessionStep e s)).map SessionState.isStreaming) = 0 :=
        abortCount_all_false _ (runStates_all_false rest (sessionStep e s) hc.2)
      omega
    · rw [if_neg hc, htail]
      have := ih (sessionStep e s)
      omega

/-- Claim C2 counterexample: with the consecutive-failure counter at
exactly 5 on a live session, the monitor tick changes nothing: the
session does not transition to Aborted, although the claim requires an
abort once the counter reaches 5 or more (the code tests
consecutiveErrors > 5). -/
theorem breaker_not_triggered_at_five :
    logPerformanceStats ⟨true, true, [], 5⟩ = ⟨true, true, [], 5⟩ ∧
    (logPerformanceStats ⟨true, true, [], 5⟩).isStreaming = true := by
  decide

/-- Claim C2 (amended): the circuit breaker fires only when the
session counter strictly exceeds 5; when it does, at most two monitor
ticks drive the session to the stopped state; at exactly 5 the tick is
a no-op; and along any trace of monitor events the transition into the
stopped state happens at most once. -/
theorem circuit_breaker_spec :
    (∀ s : SessionState, 5 < s.consecutiveErrors →
        (logPerformanceStats (logPerformanceStats s)).isStreaming = false) ∧
    (∀ s : SessionState, s.consecutiveErrors = 5 → logPerformanceStats s = s) ∧
    (∀ events s, abortCount ((runStates events s).map SessionState.isStreaming) ≤ 1) := by
  refine ⟨?_, ?_, ?_⟩
  · intro s h
    by_cases hso : s.sinkOpen <;>
      simp [logPerformanceStats, handleSourceBufferErrorRecovery, h, hso]
  · intro s h
    simp [logPerformanceStats, h]
  · exact fun events s => abortCount_le_one events s

/-- Claim C2 witness: the breaker specification applied to a live
session with counter 6 (driven to stopped within two ticks), to a live
session with counter exactly 5 (tick is a no-op), and to a one-tick
trace (at most one abort transition). -/
theorem circuit_breaker_spec_witness :
    (logPerformanceStats (logPerformanceStats ⟨true, true, [], 6⟩)).isStreaming = false ∧
    logPerformanceStats ⟨true, true, [], 5⟩ = ⟨true, true, [], 5⟩ ∧
    abortCount ((runStates [.statsTick] ⟨true, true, [], 6⟩).map
      SessionState.isStreaming) ≤ 1 :=
  ⟨circuit_breaker_spec.1 ⟨true, true, [], 6⟩ (by norm_num),
   circuit_breaker_spec.2.1 ⟨true, true, [], 5⟩ rfl,
   circuit_breaker_spec.2.2 [.statsTick] ⟨true, true, [], 6⟩⟩

/-- Claim C8 witness: chunk 1 is pending when the clear happens after
the trace push 0, push 1, pop, and is never appended in the
continuation push 2, pop, pop. -/
theorem cleared_chunks_never_appended_witness :
    1 ∉ (runStream ([.push 0, .push 1, .pop] ++
        StreamEvent.clear :: [.push 2, .pop, .pop]) initQueue).appended :=
  cleared_chunks_never_appended [.push 0, .push 1, .pop] [.push 2, .pop, .pop] 1
    (by decide) (by decide)

end FFmpegDemo
